import Mathlib

/-!
Verification development for the graceful-shutdown server wrapper of the
weavebox repository (file `server.go`, package `weavebox`).

The subsystem under study is the `server` type and its operations:
`newServer`, `ListenAndServe`, `ListenAndServeTLS`, `server.listen`,
`server.listenTLS`, `server.serve` and `server.closeNotify`, plus an older
revision exposing an exported `Server` struct with a `CloseTimeout` field.

Shallow embedding conventions:
* Go `error` values are modelled by `GoError`: `errorString msg` is the value
  produced by `errors.New(msg)` (dynamic type `*errors.errorString`, whose
  only observable is its `Error() string` method), and `dynamic ty msg` is an
  error of any other dynamic type `ty` whose `Error()` method yields `msg`.
* `strings.Contains` is modelled by `strContains` over the character lists of
  the strings.
* The `select` loop in `server.serve` is modelled as a function over the
  sequence of events the `select` statement delivers, in delivery order: a
  receive on `errChan` (the terminal error of `http.Server.Serve`), a receive
  on `s.quit`, or a receive on `s.fquit`.  The side effects performed by the
  loop (`SetKeepAlivesEnabled`, `wg.Wait`) are recorded as an action trace.
* `server.closeNotify` is modelled as a function from the received OS signal
  (one of the five signals registered with `signal.Notify`) to the actions it
  performs, or to the panic it raises.
* The connection-state callback installed by `server.serve` is modelled by
  `connDelta` acting on a `sync.WaitGroup` counter, and a run of the callback
  is a list of (connection id, `http.ConnState`) events.
-/

/-- Model of `strings.HasPrefix`-style matching at the head of a character
list: `leadsWith pat s` holds iff `pat` occurs at the start of `s`. -/
def leadsWith : List Char → List Char → Bool
  | [], _ => true
  | _ :: _, [] => false
  | a :: as, b :: bs => a == b && leadsWith as bs

/-- `subListAt pat s` holds iff `pat` occurs as a contiguous sublist of `s`
at some position. -/
def subListAt : List Char → List Char → Bool
  | pat, [] => leadsWith pat []
  | pat, b :: bs => leadsWith pat (b :: bs) || subListAt pat bs

/-- Model of Go `strings.Contains(s, pat)`. -/
def strContains (s pat : String) : Bool := subListAt pat.data s.data

/-- The constant `useClosedConn` of `server.go`: the known message fragment of
the benign "listener closed underneath an in-progress accept" error. -/
def useClosedConn : String := "use of closed network connection"

/-- Message of the graceful-stop sentinel built in `server.serve`. -/
def gracefulMsg : String := "server stopped gracefully"

/-- Message of the forced-stop sentinel built in `server.serve`. -/
def killedMsg : String := "server stopped: process killed"

/-- Message of the panic raised by `server.closeNotify` on SIGUSR2. -/
def usr2PanicMsg : String := "USR2 => not implemented"

/-- A Go `error` value.  `errorString msg` is the value `errors.New(msg)`
returns (dynamic type `*errors.errorString`); `dynamic ty msg` is an error of
any other dynamic type `ty`.  In both cases the observable behaviour is the
`Error() string` method, modelled by `GoError.errorMethod`. -/
inductive GoError
  | errorString (msg : String)
  | dynamic (ty msg : String)
deriving DecidableEq

/-- The `Error() string` method of a Go error value. -/
def GoError.errorMethod : GoError → String
  | .errorString m => m
  | .dynamic _ m => m

/-- Model of `errors.New`: it wraps the message in an `errorString`. -/
def errorsNew (msg : String) : GoError := .errorString msg

/-- One event delivered by the three-way `select` in `server.serve`
(part_001 lines 104-118): the engine's terminal error arriving on `errChan`,
a receive on the graceful channel `s.quit`, or a receive on the forced
channel `s.fquit`. -/
inductive ServeEvent
  | engineErr (e : GoError)
  | quit
  | fquit
deriving DecidableEq

/-- A side effect performed by the `server.serve` loop. -/
inductive ServeAction
  | setKeepAlivesEnabled (b : Bool)
  | wgWait
deriving DecidableEq

/-- Model of the `for { select { ... } }` loop of `server.serve`
(part_001 lines 104-118), as a function of the sequence of delivered events.
The result is the trace of side effects together with the returned error
(`none` when the loop is still blocked after all listed events).

Faithful to the source: an `errChan` error whose message contains
`useClosedConn` is suppressed by `continue`; any other `errChan` error is
returned unchanged; on `quit` the loop calls `SetKeepAlivesEnabled(false)`,
then `wg.Wait()`, then returns `errors.New("server stopped gracefully")`;
on `fquit` it immediately returns
`errors.New("server stopped: process killed")`. -/
def serve : List ServeEvent → List ServeAction × Option GoError
  | [] => ([], none)
  | .engineErr e :: rest =>
    if strContains (GoError.errorMethod e) useClosedConn then serve rest
    else ([], some e)
  | .quit :: _ =>
    ([.setKeepAlivesEnabled false, .wgWait], some (errorsNew gracefulMsg))
  | .fquit :: _ => ([], some (errorsNew killedMsg))

/-- The five OS signals registered with `signal.Notify` in
`server.closeNotify`; the watcher's single receive yields one of these. -/
inductive Signal
  | sigterm
  | sigkill
  | sigquit
  | sigusr2
  | sigint
deriving DecidableEq

/-- An action performed by `server.closeNotify` after receiving a signal. -/
inductive NotifyAction
  | listenerClose
  | sendQuit
  | sendFquit
deriving DecidableEq

/-- Result of `server.closeNotify`: either it runs a list of actions and
returns, or it panics with a message. -/
inductive NotifyResult
  | done (actions : List NotifyAction)
  | panicked (msg : String)
deriving DecidableEq

/-- Model of `server.closeNotify` (part_001 lines 121-143) as a function of
the signal received: SIGTERM/SIGQUIT/SIGINT close the listener then send on
`s.quit`; SIGKILL closes the listener then sends on `s.fquit`; SIGUSR2
panics with "USR2 => not implemented". -/
def closeNotify : Signal → NotifyResult
  | .sigterm => .done [.listenerClose, .sendQuit]
  | .sigquit => .done [.listenerClose, .sendQuit]
  | .sigint => .done [.listenerClose, .sendQuit]
  | .sigkill => .done [.listenerClose, .sendFquit]
  | .sigusr2 => .panicked usr2PanicMsg

/-- A representative benign engine error: the `*net.OpError` produced when the
listener is closed underneath an in-progress `Accept`. -/
def opErrorTy : String := "net.OpError"

/-- Message of the representative benign engine error. -/
def acceptClosedMsg : String := "accept tcp: use of closed network connection"

/-- The representative benign engine error value. -/
def benignCloseErr : GoError := .dynamic opErrorTy acceptClosedMsg

/-- A representative genuinely unrelated engine error message. -/
def engineFailMsg : String := "accept tcp: too many open files"

/-- A representative genuinely unrelated engine error value. -/
def engineFailErr : GoError := .dynamic opErrorTy engineFailMsg

/-- An event the serve loop suppresses and loops past: an engine error whose
message contains `useClosedConn`.  Receives on `quit` and `fquit` are never
suppressed. -/
def benignEv : ServeEvent → Bool
  | .engineErr e => strContains (GoError.errorMethod e) useClosedConn
  | .quit => false
  | .fquit => false

/-- The value `server.serve` returns when the given delivered event is the
deciding (non-suppressed) one: an unrelated engine error is returned
unchanged, `quit` yields the graceful sentinel, `fquit` the forced one. -/
def outcomeOf : ServeEvent → GoError
  | .engineErr e => e
  | .quit => errorsNew gracefulMsg
  | .fquit => errorsNew killedMsg

/-- A set-up effect performed on the `listenTLS`/`serve` path, in program
order. -/
inductive Effect
  | loadKeyPair
  | netListen
  | newTLSListener
  | installConnState
  | spawnCloseNotify
  | spawnServe
deriving DecidableEq

/-- Model of `server.serve` including the set-up effects it performs before
entering the select loop (part_001 lines 88-102): installing the
connection-state callback, spawning `closeNotify`, and spawning the goroutine
that funnels `http.Server.Serve`'s terminal error into `errChan`. -/
def serveFull (events : List ServeEvent) :
    List Effect × List ServeAction × Option GoError :=
  ([Effect.installConnState, Effect.spawnCloseNotify, Effect.spawnServe],
    (serve events).1, (serve events).2)

/-- Model of `server.listenTLS` (part_001 lines 66-84).  `loadRes` is the
outcome of `tls.LoadX509KeyPair(cert, key)` (`some e` when loading fails with
error `e`), `listenRes` that of `net.Listen("tcp", s.Addr)`.  Faithful to the
source order: the key pair is loaded first; on failure its error is returned
before `net.Listen`, `tls.NewListener` and `s.serve` are ever reached. -/
def listenTLS (loadRes : Option GoError) (listenRes : Option GoError)
    (events : List ServeEvent) :
    List Effect × List ServeAction × Option GoError :=
  match loadRes with
  | some e => ([Effect.loadKeyPair], [], some e)
  | none =>
    match listenRes with
    | some e => ([Effect.loadKeyPair, Effect.netListen], [], some e)
    | none =>
      let rest := serveFull events
      ([Effect.loadKeyPair, Effect.netListen, Effect.newTLSListener] ++ rest.1,
        rest.2.1, rest.2.2)

/-- Dynamic type of the error `tls.LoadX509KeyPair` yields on a missing
certificate file. -/
def pathErrorTy : String := "os.PathError"

/-- Message of the load error for a nonexistent certificate path. -/
def certFailMsg : String := "open cert.pem: no such file or directory"

/-- The concrete load error for a nonexistent certificate path. -/
def certFailErr : GoError := .dynamic pathErrorTy certFailMsg

/-- The exported `Server` struct of the older revision (part_000 lines
147-152): the embedded `http.Server` address plus the `CloseTimeout`
duration field (modelled in nanoseconds) that `ListenAndServe` of that
revision sets to 400.  The `quit` channel and the `wg` wait group are runtime
state, not configuration. -/
structure Server where
  Addr : String
  CloseTimeout : Nat
deriving DecidableEq

/-- One event delivered by the two-way `select` of the older revision's
`Server.serve` (part_000 lines 221-229): an `errChan` receive or a `s.quit`
receive.  That revision has no forced-stop channel. -/
inductive ServeEventB
  | engineErr (e : GoError)
  | quit
deriving DecidableEq

/-- Model of `Server.serve` of the older revision (part_000 lines 205-231),
with `acts` the side-effect trace accumulated so far.  Faithful to the
source: on an `errChan` receive the error is returned unchanged (this
revision has no benign-close suppression); on a `quit` receive the loop calls
`wg.Wait()` and then executes `break` — which in Go terminates the `select`
statement, not the surrounding `for`, so the loop iterates and blocks again
(the trailing `return nil` is unreachable).  No statement of the body reads
`s.CloseTimeout`. -/
def Server.serve (s : Server) :
    List ServeEventB → List ServeAction → List ServeAction × Option GoError
  | [], acts => (acts, none)
  | .engineErr e :: _, acts => (acts, some e)
  | .quit :: rest, acts => Server.serve s rest (acts ++ [ServeAction.wgWait])

/-- The `http.ConnState` values the connection-state callback can receive. -/
inductive ConnState
  | stateNew
  | stateActive
  | stateIdle
  | stateHijacked
  | stateClosed
deriving DecidableEq

/-- One invocation of the connection-state callback: the connection
(identified by a number) and the state it transitioned to. -/
abbrev ConnEvent := Nat × ConnState

/-- The delta the callback installed by `server.serve` (part_001 lines 89-96)
applies to the `sync.WaitGroup` counter: `wg.Add(1)` on `StateNew`,
`wg.Done()` on `StateClosed` or `StateHijacked`, nothing otherwise. -/
def connDelta : ConnState → Int
  | .stateNew => 1
  | .stateClosed => -1
  | .stateHijacked => -1
  | .stateActive => 0
  | .stateIdle => 0

/-- Whether a state is `StateNew`. -/
def isNewSt : ConnState → Bool
  | .stateNew => true
  | _ => false

/-- Whether a state is `StateClosed` or `StateHijacked`. -/
def isTermSt : ConnState → Bool
  | .stateClosed => true
  | .stateHijacked => true
  | _ => false

/-- The WaitGroup counter after a run of callback invocations, starting from
the zero counter the server is created with. -/
def wgCounter (evs : List ConnEvent) : Int :=
  evs.foldl (fun a e => a + connDelta e.2) 0

/-- Number of `StateNew` callbacks for connection `c` in a run. -/
def newsFor (c : Nat) (evs : List ConnEvent) : Nat :=
  evs.countP fun e => decide (e.1 = c) && isNewSt e.2

/-- Number of `StateClosed`/`StateHijacked` callbacks for connection `c`. -/
def termsFor (c : Nat) (evs : List ConnEvent) : Nat :=
  evs.countP fun e => decide (e.1 = c) && isTermSt e.2

/-- Total number of `StateNew` callbacks in a run. -/
def totalNews (evs : List ConnEvent) : Nat := evs.countP fun e => isNewSt e.2

/-- Total number of `StateClosed`/`StateHijacked` callbacks in a run. -/
def totalTerms (evs : List ConnEvent) : Nat := evs.countP fun e => isTermSt e.2

/-- Well-formedness of a callback run, as the claim hypothesises it: each
connection reports `StateNew` before `StateClosed` or `StateHijacked` —
i.e. at every prefix of the run, per connection, the terminal callbacks do
not outnumber the open callbacks. -/
def trackerWF (evs : List ConnEvent) : Prop :=
  ∀ n : Fin (evs.length + 1), ∀ c ∈ evs.map Prod.fst,
    termsFor c (evs.take n.val) ≤ newsFor c (evs.take n.val)

instance (evs : List ConnEvent) : Decidable (trackerWF evs) := by
  unfold trackerWF
  infer_instance

/-- A concrete well-formed callback run: two connections opened, one kept
active for a while, then both matched by a close or hijack. -/
def wfRun : List ConnEvent :=
  [(0, ConnState.stateNew), (1, ConnState.stateNew), (1, ConnState.stateActive),
    (1, ConnState.stateClosed), (0, ConnState.stateHijacked)]

lemma serve_benign_cons (e : ServeEvent) (rest : List ServeEvent)
    (h : benignEv e = true) : serve (e :: rest) = serve rest := by
  cases e with
  | engineErr g =>
    simp only [benignEv] at h
    simp only [serve, h, if_true]
  | quit => simp [benignEv] at h
  | fquit => simp [benignEv] at h

lemma serve_benign_app (pre rest : List ServeEvent)
    (h : ∀ e ∈ pre, benignEv e = true) : serve (pre ++ rest) = serve rest := by
  induction pre with
  | nil => rfl
  | cons e pre ih =>
    rw [List.cons_append, serve_benign_cons e _ (h e (List.mem_cons_self e pre))]
    exact ih fun x hx => h x (List.mem_cons_of_mem e hx)

lemma first_split_unique {α : Type} (p : α → Bool) :
    ∀ (pre₁ : List α) (pre₂ : List α) (d₁ d₂ : α) (post₁ post₂ : List α),
      pre₁ ++ d₁ :: post₁ = pre₂ ++ d₂ :: post₂ →
      (∀ e ∈ pre₁, p e = true) → p d₁ = false →
      (∀ e ∈ pre₂, p e = true) → p d₂ = false →
      pre₁ = pre₂ ∧ d₁ = d₂ ∧ post₁ = post₂ := by
  intro pre₁
  induction pre₁ with
  | nil =>
    intro pre₂ d₁ d₂ post₁ post₂ heq h₁ hd₁ h₂ hd₂
    cases pre₂ with
    | nil =>
      simp only [List.nil_append, List.cons.injEq] at heq
      exact ⟨rfl, heq.1, heq.2⟩
    | cons b pre₂ =>
      simp only [List.nil_append, List.cons_append, List.cons.injEq] at heq
      exfalso
      have hb : p b = true := h₂ b (List.mem_cons_self b pre₂)
      rw [← heq.1] at hb
      rw [hd₁] at hb
      exact Bool.false_ne_true hb
  | cons a pre₁ ih =>
    intro pre₂ d₁ d₂ post₁ post₂ heq h₁ hd₁ h₂ hd₂
    cases pre₂ with
    | nil =>
      simp only [List.cons_append, List.nil_append, List.cons.injEq] at heq
      exfalso
      have ha : p a = true := h₁ a (List.mem_cons_self a pre₁)
      rw [heq.1] at ha
      rw [hd₂] at ha
      exact Bool.false_ne_true ha
    | cons b pre₂ =>
      simp only [List.cons_append, List.cons.injEq] at heq
      obtain ⟨hab, htl⟩ := heq
      obtain ⟨hp, hd, hpost⟩ := ih pre₂ d₁ d₂ post₁ post₂ htl
        (fun x hx => h₁ x (List.mem_cons_of_mem a hx)) hd₁
        (fun x hx => h₂ x (List.mem_cons_of_mem b hx)) hd₂
      exact ⟨by rw [hab, hp], hd, hpost⟩

lemma serve_split (events : List ServeEvent) (acts : List ServeAction)
    (r : GoError) (h : serve events = (acts, some r)) :
    ∃ pre dec post, events = pre ++ dec :: post ∧
      (∀ e ∈ pre, benignEv e = true) ∧ benignEv dec = false ∧
      r = outcomeOf dec := by
  induction events with
  | nil =>
    exfalso
    have : (none : Option GoError) = some r := congrArg Prod.snd h
    exact Option.noConfusion this
  | cons e rest ih =>
    by_cases hb : benignEv e = true
    · rw [serve_benign_cons e rest hb] at h
      obtain ⟨pre, dec, post, h1, h2, h3, h4⟩ := ih h
      refine ⟨e :: pre, dec, post, by rw [h1, List.cons_append], ?_, h3, h4⟩
      intro x hx
      rcases List.mem_cons.1 hx with hx | hx
      · rw [hx]; exact hb
      · exact h2 x hx
    · refine ⟨[], e, rest, rfl, by intro x hx; exact absurd hx (List.not_mem_nil x),
        Bool.eq_false_iff.2 hb, ?_⟩
      cases e with
      | engineErr g =>
        have hg : strContains (GoError.errorMethod g) useClosedConn = false := by
          simp only [benignEv] at hb
          exact Bool.eq_false_iff.2 hb
        have hserve : serve (ServeEvent.engineErr g :: rest) = ([], some g) := by
          simp only [serve, hg, Bool.false_eq_true, if_false]
        rw [hserve] at h
        have : some g = some r := congrArg Prod.snd h
        exact (Option.some.injEq _ _ ▸ this).symm
      | quit =>
        have : some (errorsNew gracefulMsg) = some r := congrArg Prod.snd h
        exact (Option.some.injEq _ _ ▸ this).symm
      | fquit =>
        have : some (errorsNew killedMsg) = some r := congrArg Prod.snd h
        exact (Option.some.injEq _ _ ▸ this).symm

lemma foldl_delta (evs : List ConnEvent) :
    ∀ a : Int, evs.foldl (fun x e => x + connDelta e.2) a =
      a + (totalNews evs : Int) - (totalTerms evs : Int) := by
  induction evs with
  | nil =>
    intro a
    simp [totalNews, totalTerms]
  | cons e rest ih =>
    intro a
    rw [List.foldl_cons, ih]
    rcases e with ⟨c, st⟩
    simp only [totalNews, totalTerms, List.countP_cons]
    cases st <;> simp [connDelta, isNewSt, isTermSt] <;> omega

lemma wgCounter_eq (evs : List ConnEvent) :
    wgCounter evs = (totalNews evs : Int) - (totalTerms evs : Int) := by
  simpa using foldl_delta evs 0

lemma countP_key_split (l : List ConnEvent) (c : Nat) (p : ConnState → Bool) :
    (l.countP fun e => p e.2) =
      (l.countP fun e => decide (e.1 = c) && p e.2) +
      ((l.filter fun x => !decide (x.1 = c)).countP fun e => p e.2) := by
  induction l with
  | nil => rfl
  | cons e rest ih =>
    by_cases hc : e.1 = c <;> cases hp : p e.2 <;>
      simp [List.countP_cons, List.filter_cons, hc, hp, ih] <;> omega

lemma countP_filter_other (l : List ConnEvent) (c c' : Nat) (hne : c' ≠ c)
    (p : ConnState → Bool) :
    ((l.filter fun x => !decide (x.1 = c)).countP
        fun e => decide (e.1 = c') && p e.2) =
      (l.countP fun e => decide (e.1 = c') && p e.2) := by
  induction l with
  | nil => rfl
  | cons e rest ih =>
    by_cases hc : e.1 = c
    · have hc' : decide (e.1 = c') = false := by
        simp only [decide_eq_false_iff_not]
        rw [hc]
        exact fun h => hne h.symm
      simp only [List.filter_cons, List.countP_cons, hc, decide_True,
        Bool.not_true, Bool.false_eq_true, if_false, ih]
      have hce : decide (c = c') = false := by
        simp only [decide_eq_false_iff_not]
        exact fun h => hne h.symm
      simp [hce]
    · simp [List.filter_cons, hc, List.countP_cons, ih]

lemma countP_filter_self (l : List ConnEvent) (c : Nat) (p : ConnState → Bool) :
    ((l.filter fun x => !decide (x.1 = c)).countP
        fun e => decide (e.1 = c) && p e.2) = 0 := by
  rw [List.countP_eq_zero]
  intro a ha
  have hmem := List.of_mem_filter ha
  simp only [Bool.not_eq_true', decide_eq_false_iff_not] at hmem
  simp [hmem]

lemma termsFor_zero_of_not_mem (c : Nat) (l : List ConnEvent)
    (h : c ∉ l.map Prod.fst) : termsFor c l = 0 := by
  rw [termsFor, List.countP_eq_zero]
  intro a ha
  have hne : a.1 ≠ c := fun hc => h (hc ▸ List.mem_map_of_mem Prod.fst ha)
  simp [hne]

lemma perConn_filter (l : List ConnEvent) (c : Nat)
    (h : ∀ cx : Nat, termsFor cx l ≤ newsFor cx l) :
    ∀ cx : Nat,
      termsFor cx (l.filter fun x => !decide (x.1 = c)) ≤
        newsFor cx (l.filter fun x => !decide (x.1 = c)) := by
  intro cx
  by_cases hx : cx = c
  · subst hx
    rw [termsFor, countP_filter_self]
    exact Nat.zero_le _
  · rw [termsFor, newsFor, countP_filter_other _ _ _ hx, countP_filter_other _ _ _ hx]
    exact h cx

lemma totalTerms_le_totalNews :
    ∀ (n : Nat) (l : List ConnEvent), l.length ≤ n →
      (∀ c : Nat, termsFor c l ≤ newsFor c l) →
      totalTerms l ≤ totalNews l := by
  intro n
  induction n with
  | zero =>
    intro l hl _
    have hnil : l = [] := List.eq_nil_of_length_eq_zero (Nat.le_zero.1 hl)
    subst hnil
    exact Nat.le_refl _
  | succ n ih =>
    intro l hl hc
    cases l with
    | nil => exact Nat.le_refl _
    | cons e rest =>
      have hlen : ((e :: rest).filter fun x => !decide (x.1 = e.1)).length ≤ n := by
        have hdrop : ((e :: rest).filter fun x => !decide (x.1 = e.1)) =
            rest.filter fun x => !decide (x.1 = e.1) := by
          rw [List.filter_cons]
          simp
        rw [hdrop]
        have h1 := List.length_filter_le (fun x => !decide (x.1 = e.1)) rest
        have h2 : rest.length + 1 ≤ n + 1 := by simpa using hl
        omega
      have hrec := ih _ hlen (perConn_filter (e :: rest) e.1 hc)
      have hce := hc e.1
      have hsT := countP_key_split (e :: rest) e.1 isTermSt
      have hsN := countP_key_split (e :: rest) e.1 isNewSt
      simp only [totalTerms, totalNews, termsFor, newsFor] at hrec hce hsT hsN ⊢
      omega

example : serve [.quit] =
    ([.setKeepAlivesEnabled false, .wgWait], some (errorsNew gracefulMsg)) := rfl

example : strContains gracefulMsg useClosedConn = false := by decide

example : strContains (GoError.errorMethod benignCloseErr) useClosedConn = true := by
  decide

example : wgCounter [(0, .stateNew), (1, .stateNew), (0, .stateClosed)] = 1 := by
  decide

example : trackerWF [(0, .stateNew), (1, .stateNew), (0, .stateClosed)] := by
  decide

example : ¬ trackerWF [(0, .stateClosed), (0, .stateNew)] := by decide

/-- C1: in every serve invocation in which the graceful-stop signal fires
(i.e. the `select` delivers a receive on `s.quit`, any earlier deliveries
having been suppressed benign engine errors), the coordinator first calls
`SetKeepAlivesEnabled(false)` on the underlying `http.Server`, then blocks on
the connection tracker's `wg.Wait()`, and then returns the purpose-built
sentinel `errors.New("server stopped gracefully")` — not a raw engine
error. -/
theorem serve_graceful_disables_keepalive_waits_returns_sentinel
    (pre post : List ServeEvent) (h : ∀ e ∈ pre, benignEv e = true) :
    serve (pre ++ ServeEvent.quit :: post) =
      ([ServeAction.setKeepAlivesEnabled false, ServeAction.wgWait],
        some (errorsNew gracefulMsg)) := by
  rw [serve_benign_app pre _ h]; rfl

/-- Witness for C1 at a concrete schedule: one suppressed benign close error
followed by the graceful-stop signal. -/
theorem serve_graceful_disables_keepalive_witness :
    serve ([ServeEvent.engineErr benignCloseErr] ++ ServeEvent.quit :: []) =
      ([ServeAction.setKeepAlivesEnabled false, ServeAction.wgWait],
        some (errorsNew gracefulMsg)) :=
  serve_graceful_disables_keepalive_waits_returns_sentinel
    [ServeEvent.engineErr benignCloseErr] [] (by decide)

/-- C2: in every serve invocation in which the forced-stop signal fires (the
`select` delivers a receive on `s.fquit`), the coordinator immediately returns
the sentinel `errors.New("server stopped: process killed")`, performing no
side effect at all — in particular it never calls `wg.Wait()`, so it does not
wait for in-flight connections to drain. -/
theorem serve_forced_returns_immediately
    (pre post : List ServeEvent) (h : ∀ e ∈ pre, benignEv e = true) :
    serve (pre ++ ServeEvent.fquit :: post) = ([], some (errorsNew killedMsg)) ∧
    ServeAction.wgWait ∉ (serve (pre ++ ServeEvent.fquit :: post)).1 := by
  have h1 : serve (pre ++ ServeEvent.fquit :: post) =
      ([], some (errorsNew killedMsg)) := by
    rw [serve_benign_app pre _ h]; rfl
  refine ⟨h1, ?_⟩
  rw [h1]
  simp

/-- Witness for C2 at a concrete schedule: one suppressed benign close error
followed by the forced-stop signal. -/
theorem serve_forced_returns_immediately_witness :
    serve ([ServeEvent.engineErr benignCloseErr] ++ ServeEvent.fquit :: []) =
      ([], some (errorsNew killedMsg)) ∧
    ServeAction.wgWait ∉
      (serve ([ServeEvent.engineErr benignCloseErr] ++ ServeEvent.fquit :: [])).1 :=
  serve_forced_returns_immediately [ServeEvent.engineErr benignCloseErr] []
    (by decide)

/-- C3: whatever the schedule of delivered events, if `server.serve` returns
an error value at all, that value never matches the benign
"use of closed network connection" message (the loop recognizes the message
with `strings.Contains` and suppresses it with `continue`), and the returned
value is one of: the graceful sentinel, the forced sentinel, or an engine
error from the schedule that does not match the benign message. -/
theorem serve_never_returns_benign_close_error
    (events : List ServeEvent) (r : GoError)
    (h : (serve events).2 = some r) :
    strContains (GoError.errorMethod r) useClosedConn = false ∧
    (r = errorsNew gracefulMsg ∨ r = errorsNew killedMsg ∨
      ServeEvent.engineErr r ∈ events) := by
  induction events with
  | nil => simp [serve] at h
  | cons e rest ih =>
    cases e with
    | engineErr g =>
      by_cases hb : strContains (GoError.errorMethod g) useClosedConn = true
      · rw [serve_benign_cons (ServeEvent.engineErr g) rest
          (by simpa [benignEv] using hb)] at h
        rcases ih h with ⟨h1, h2⟩
        refine ⟨h1, ?_⟩
        rcases h2 with h2 | h2 | h2
        · exact Or.inl h2
        · exact Or.inr (Or.inl h2)
        · exact Or.inr (Or.inr (List.mem_cons_of_mem _ h2))
      · have hserve : serve (ServeEvent.engineErr g :: rest) = ([], some g) := by
          simp only [serve, if_neg hb]
        rw [hserve] at h
        have hg : g = r := by simpa using h
        subst hg
        refine ⟨by simpa using hb, Or.inr (Or.inr (List.mem_cons_self _ _))⟩
    | quit =>
      have hserve : serve (ServeEvent.quit :: rest) =
          ([ServeAction.setKeepAlivesEnabled false, ServeAction.wgWait],
            some (errorsNew gracefulMsg)) := rfl
      rw [hserve] at h
      have hr : errorsNew gracefulMsg = r := by simpa using h
      subst hr
      exact ⟨by decide, Or.inl rfl⟩
    | fquit =>
      have hserve : serve (ServeEvent.fquit :: rest) =
          ([], some (errorsNew killedMsg)) := rfl
      rw [hserve] at h
      have hr : errorsNew killedMsg = r := by simpa using h
      subst hr
      exact ⟨by decide, Or.inr (Or.inl rfl)⟩

/-- Witness for C3 at a concrete schedule ending in an unrelated engine
error. -/
theorem serve_never_returns_benign_close_error_witness :
    strContains (GoError.errorMethod engineFailErr) useClosedConn = false ∧
    (engineFailErr = errorsNew gracefulMsg ∨ engineFailErr = errorsNew killedMsg ∨
      ServeEvent.engineErr engineFailErr ∈
        [ServeEvent.engineErr benignCloseErr, ServeEvent.engineErr engineFailErr]) :=
  serve_never_returns_benign_close_error
    [ServeEvent.engineErr benignCloseErr, ServeEvent.engineErr engineFailErr]
    engineFailErr (by decide)

/-- C4: per serve invocation there is at most one terminal outcome.  If the
loop returns at all, then the delivered schedule splits uniquely as a run of
suppressed benign engine errors followed by a single deciding event, and the
returned value is exactly the outcome of that deciding event — one of
{unrelated engine error returned unchanged, graceful sentinel, forced
sentinel}.  The uniqueness clause states that no other split exists, i.e. no
transition is ever retried and only one of the three cases fires. -/
theorem serve_unique_terminal_outcome
    (events : List ServeEvent) (acts : List ServeAction) (r : GoError)
    (h : serve events = (acts, some r)) :
    ∃ pre dec post, events = pre ++ dec :: post ∧
      (∀ e ∈ pre, benignEv e = true) ∧ benignEv dec = false ∧
      r = outcomeOf dec ∧
      ∀ pre' dec' post', events = pre' ++ dec' :: post' →
        (∀ e ∈ pre', benignEv e = true) → benignEv dec' = false →
        pre' = pre ∧ dec' = dec ∧ post' = post := by
  obtain ⟨pre, dec, post, h1, h2, h3, h4⟩ := serve_split events acts r h
  refine ⟨pre, dec, post, h1, h2, h3, h4, ?_⟩
  intro pre' dec' post' h1' h2' h3'
  exact first_split_unique benignEv pre' pre dec' dec post' post
    (by rw [← h1', ← h1]) h2' h3' h2 h3

/-- Witness for C4 at a concrete schedule: a suppressed benign error followed
by the graceful-stop signal. -/
theorem serve_unique_terminal_outcome_witness :
    ∃ pre dec post,
      [ServeEvent.engineErr benignCloseErr, ServeEvent.quit] =
        pre ++ dec :: post ∧
      (∀ e ∈ pre, benignEv e = true) ∧ benignEv dec = false ∧
      errorsNew gracefulMsg = outcomeOf dec ∧
      ∀ pre' dec' post',
        [ServeEvent.engineErr benignCloseErr, ServeEvent.quit] =
          pre' ++ dec' :: post' →
        (∀ e ∈ pre', benignEv e = true) → benignEv dec' = false →
        pre' = pre ∧ dec' = dec ∧ post' = post :=
  serve_unique_terminal_outcome
    [ServeEvent.engineErr benignCloseErr, ServeEvent.quit]
    [ServeAction.setKeepAlivesEnabled false, ServeAction.wgWait]
    (errorsNew gracefulMsg) (by decide)

/-- C5: in every branch of `server.closeNotify` that publishes a stop
decision (a send on `s.quit` or `s.fquit`), the listener's `Close()` is
invoked strictly before the send, so no new connection can be accepted after
a stop decision is made. -/
theorem closeNotify_closes_listener_before_publish
    (sg : Signal) (acts : List NotifyAction)
    (h : closeNotify sg = NotifyResult.done acts) :
    ∀ i : Fin acts.length,
      (acts.get i = NotifyAction.sendQuit ∨ acts.get i = NotifyAction.sendFquit) →
      ∃ j : Fin acts.length,
        (j : Nat) < (i : Nat) ∧ acts.get j = NotifyAction.listenerClose := by
  cases sg with
  | sigterm =>
    simp only [closeNotify, NotifyResult.done.injEq] at h
    subst h; decide
  | sigquit =>
    simp only [closeNotify, NotifyResult.done.injEq] at h
    subst h; decide
  | sigint =>
    simp only [closeNotify, NotifyResult.done.injEq] at h
    subst h; decide
  | sigkill =>
    simp only [closeNotify, NotifyResult.done.injEq] at h
    subst h; decide
  | sigusr2 => exact absurd h (by simp [closeNotify])

/-- Witness for C5: SIGTERM, whose action list is
`[listenerClose, sendQuit]`, with the send at index 1. -/
theorem closeNotify_closes_listener_before_publish_witness :
    ∃ j : Fin ([NotifyAction.listenerClose, NotifyAction.sendQuit].length),
      (j : Nat) < ((1 : Fin 2) : Nat) ∧
      [NotifyAction.listenerClose, NotifyAction.sendQuit].get j =
        NotifyAction.listenerClose :=
  closeNotify_closes_listener_before_publish Signal.sigterm
    [NotifyAction.listenerClose, NotifyAction.sendQuit] rfl (1 : Fin 2)
    (Or.inl rfl)

/-- C8: on the reserved live-reload signal SIGUSR2 the watcher panics with
the diagnostic "USR2 => not implemented" (it does not run a `done` action
list, so it neither no-ops silently nor continues to serve). -/
theorem closeNotify_usr2_panics :
    closeNotify Signal.sigusr2 = NotifyResult.panicked usr2PanicMsg := rfl

/-- C7: when the certificate/key pair cannot be loaded, `listenTLS` returns
the load error with only the load attempt in its effect trace: no listener is
opened (`netListen` absent) and neither the signal watcher
(`spawnCloseNotify`) nor the serve loop (`spawnServe`) is ever started. -/
theorem listenTLS_cert_load_error_stops_everything
    (e : GoError) (listenRes : Option GoError) (events : List ServeEvent) :
    listenTLS (some e) listenRes events = ([Effect.loadKeyPair], [], some e) ∧
    Effect.netListen ∉ (listenTLS (some e) listenRes events).1 ∧
    Effect.spawnCloseNotify ∉ (listenTLS (some e) listenRes events).1 ∧
    Effect.spawnServe ∉ (listenTLS (some e) listenRes events).1 := by
  refine ⟨rfl, ?_, ?_, ?_⟩ <;> simp [listenTLS]

/-- Witness for C7 at a concrete nonexistent-certificate load error. -/
theorem listenTLS_cert_load_error_witness :
    listenTLS (some certFailErr) none [] =
      ([Effect.loadKeyPair], [], some certFailErr) ∧
    Effect.netListen ∉ (listenTLS (some certFailErr) none []).1 ∧
    Effect.spawnCloseNotify ∉ (listenTLS (some certFailErr) none []).1 ∧
    Effect.spawnServe ∉ (listenTLS (some certFailErr) none []).1 :=
  listenTLS_cert_load_error_stops_everything certFailErr none []

/-- C10: the graceful and forced sentinels returned by `server.serve` are
ordinary non-nil error values built by `errors.New` from the fixed messages
"server stopped gracefully" and "server stopped: process killed": both are
plain `errorString` values (the dynamic type every `errors.New` result has,
with no distinguished sentinel identity — two `errors.New` results are equal
in the model exactly when their messages are), so a caller of
`ListenAndServe` can tell them apart from each other and from engine errors
only through the `Error()` message text, which does differ between the
two. -/
theorem serve_sentinels_are_plain_message_errors :
    (serve [ServeEvent.quit]).2 = some (errorsNew gracefulMsg) ∧
    (serve [ServeEvent.fquit]).2 = some (errorsNew killedMsg) ∧
    errorsNew gracefulMsg = GoError.errorString gracefulMsg ∧
    errorsNew killedMsg = GoError.errorString killedMsg ∧
    GoError.errorMethod (errorsNew gracefulMsg) ≠
      GoError.errorMethod (errorsNew killedMsg) ∧
    (∀ s t : String, errorsNew s = errorsNew t ↔ s = t) := by
  refine ⟨rfl, rfl, rfl, rfl, by decide, ?_⟩
  intro s t
  constructor
  · intro h
    exact GoError.errorString.inj h
  · intro h
    rw [h]

/-- Witness for C10: the graceful sentinel at a concrete schedule, and the
message-equality criterion applied to the two sentinel messages. -/
theorem serve_sentinels_are_plain_message_errors_witness :
    (serve [ServeEvent.quit]).2 = some (errorsNew gracefulMsg) ∧
    (errorsNew gracefulMsg = errorsNew killedMsg ↔ gracefulMsg = killedMsg) :=
  ⟨serve_sentinels_are_plain_message_errors.1,
    serve_sentinels_are_plain_message_errors.2.2.2.2.2 gracefulMsg killedMsg⟩

/-- C9: the `CloseTimeout` field is never read by any serve or shutdown path
of the revision that declares it: two runs of `Server.serve` identical except
for the value of `CloseTimeout` produce the same side-effect trace and the
same result — in particular the graceful drain wait has no bounded
timeout. -/
theorem Server_serve_independent_of_CloseTimeout
    (a : String) (t₁ t₂ : Nat) (events : List ServeEventB)
    (acts : List ServeAction) :
    Server.serve ⟨a, t₁⟩ events acts = Server.serve ⟨a, t₂⟩ events acts := by
  induction events generalizing acts with
  | nil => rfl
  | cons e rest ih =>
    cases e with
    | engineErr g => rfl
    | quit => exact ih _

/-- C6: under the claim's hypothesis that each connection reports `StateNew`
before `StateClosed`/`StateHijacked`, the WaitGroup counter driven by the
connection-state callback never goes negative (it is nonnegative after every
prefix of the run), and the graceful drain wait — which `wg.Wait()` releases
exactly when the counter is zero — releases only when every opened connection
has been matched by a close or hijack (per connection, decrements equal
increments). -/
theorem tracker_count_nonneg_and_drain_complete
    (evs : List ConnEvent) (h : trackerWF evs) :
    (∀ n : Nat, 0 ≤ wgCounter (evs.take n)) ∧
    (wgCounter evs = 0 → ∀ c : Nat, termsFor c evs = newsFor c evs) := by
  have hpt : ∀ (n : Nat) (c : Nat),
      termsFor c (evs.take n) ≤ newsFor c (evs.take n) := by
    intro n c
    by_cases hm : c ∈ evs.map Prod.fst
    · by_cases hn : n ≤ evs.length
      · exact h ⟨n, by omega⟩ c hm
      · rw [List.take_of_length_le (by omega)]
        have hfull := h ⟨evs.length, by omega⟩ c hm
        rwa [List.take_of_length_le (Nat.le_refl _)] at hfull
    · have h0 : termsFor c (evs.take n) = 0 := by
        apply termsFor_zero_of_not_mem
        intro hcmem
        rcases List.mem_map.1 hcmem with ⟨a, ha, hac⟩
        exact hm (hac ▸ List.mem_map_of_mem Prod.fst (List.take_subset n evs ha))
      rw [h0]
      exact Nat.zero_le _
  refine ⟨?_, ?_⟩
  · intro n
    have hle : totalTerms (evs.take n) ≤ totalNews (evs.take n) :=
      totalTerms_le_totalNews (evs.take n).length _ (Nat.le_refl _) (hpt n)
    rw [wgCounter_eq]
    omega
  · intro h0 c
    have htot : totalNews evs = totalTerms evs := by
      have heq := wgCounter_eq evs
      omega
    have hsT := countP_key_split evs c isTermSt
    have hsN := countP_key_split evs c isNewSt
    have hperv : ∀ cx : Nat, termsFor cx evs ≤ newsFor cx evs := by
      intro cx
      have hx := hpt evs.length cx
      rwa [List.take_of_length_le (Nat.le_refl _)] at hx
    have hl2 : totalTerms (evs.filter fun x => !decide (x.1 = c)) ≤
        totalNews (evs.filter fun x => !decide (x.1 = c)) :=
      totalTerms_le_totalNews (evs.filter fun x => !decide (x.1 = c)).length _
        (Nat.le_refl _) (perConn_filter evs c hperv)
    have hce := hperv c
    simp only [totalTerms, totalNews, termsFor, newsFor] at hsT hsN hl2 hce htot ⊢
    omega

/-- Witness for C6 at the concrete run `wfRun`. -/
theorem tracker_count_nonneg_and_drain_complete_witness :
    trackerWF wfRun ∧ 0 ≤ wgCounter (wfRun.take 3) ∧
      termsFor 1 wfRun = newsFor 1 wfRun :=
  ⟨by decide,
    (tracker_count_nonneg_and_drain_complete wfRun (by decide)).1 3,
    (tracker_count_nonneg_and_drain_complete wfRun (by decide)).2 (by decide) 1⟩
